import Mathlib

/-!
Shallow embedding of the normalization pipeline of `crawler/combined_crawlers.py`
(price parser, field extractor, record fixer, CSV record loop, store loop),
together with theorems settling the frozen claims about it.

Python `Decimal` values produced by the pipeline are modelled as `PyDecimal`:
either a finite value (a `Rat`, here always quantized to 2 decimal places) or
a quiet NaN with its sign and diagnostic payload, which `Decimal` string
conversion can produce and `quantize` passes through unchanged.  Machine
`str` is modelled as `String` / `List Char`.  `None`-able values are
`Option`.  Exceptions are modelled with `Except`.
-/

namespace Cjenoslava

/-! ## Python string primitives used by the pipeline -/

/-- The double-quote character `"` (written via its code point to keep the
source free of quote-in-literal corner cases). -/
def dquote : Char := Char.ofNat 34

/-- The single-quote character. -/
def squote : Char := Char.ofNat 39

/-- Characters stripped by Python `str.strip()`: the code points for which
`str.isspace()` holds — `\t`, `\n`, `\x0b`, `\x0c`, `\r` (9-13), the
information separators `\x1c`-`\x1f` (28-31), the space (32), next line
`\x85` (133), no-break space `\xa0` (160), ogham space mark (5760), the
Unicode spaces U+2000-U+200A (8192-8202), line and paragraph separators
U+2028/U+2029 (8232/8233), narrow no-break space U+202F (8239), medium
mathematical space U+205F (8287) and ideographic space U+3000 (12288). -/
def isPyWs (c : Char) : Bool :=
  (decide (9 ≤ c.toNat) && decide (c.toNat ≤ 13)) ||
  (decide (28 ≤ c.toNat) && decide (c.toNat ≤ 32)) ||
  c.toNat == 133 || c.toNat == 160 || c.toNat == 5760 ||
  (decide (8192 ≤ c.toNat) && decide (c.toNat ≤ 8202)) ||
  c.toNat == 8232 || c.toNat == 8233 || c.toNat == 8239 || c.toNat == 8287 ||
  c.toNat == 12288

/-- Python `str.strip()` on a character list: drop whitespace from both ends. -/
def pyStripList (s : List Char) : List Char :=
  (((s.dropWhile isPyWs).reverse).dropWhile isPyWs).reverse

/-- Python `str.strip()`. -/
def pyStrip (s : String) : String := String.mk (pyStripList s.toList)

/-- Python `str.replace("EUR", "")`: remove every occurrence of `EUR`,
scanning left to right (non-overlapping matches). -/
def removeEUR : List Char → List Char
  | [] => []
  | [c] => [c]
  | [c1, c2] => [c1, c2]
  | c1 :: c2 :: c3 :: rest =>
    if c1 = 'E' ∧ c2 = 'U' ∧ c3 = 'R' then removeEUR rest
    else c1 :: removeEUR (c2 :: c3 :: rest)

/-- Python `str.replace(",", ".")`, one character at a time. -/
def commaToDot (c : Char) : Char := if c = ',' then '.' else c

/-! ## The price parser (`parse_price`) -/

/-- `price_str.replace("€", "").replace("EUR", "").replace(",", ".").strip()`
from `parse_price`. -/
def normalizePriceChars (s : List Char) : List Char :=
  pyStripList ((removeEUR (s.filter (fun c => c ≠ '€'))).map commaToDot)

/-- `if price_str.startswith("."): price_str = "0" + price_str`. -/
def repairLeadingZero : List Char → List Char
  | '.' :: rest => '0' :: '.' :: rest
  | s => s

/-- Digit string to number, most significant first. -/
def digitsToNat (ds : List Char) : Nat :=
  ds.foldl (fun acc c => 10 * acc + (c.toNat - '0'.toNat)) 0

/-- Optional leading sign of a Python `Decimal` literal. -/
def splitSign : List Char → Bool × List Char
  | '-' :: rest => (true, rest)
  | '+' :: rest => (false, rest)
  | s => (false, s)

/-- Split a `Decimal` literal at its first exponent marker `e`/`E`. -/
def splitExp : List Char → List Char × Option (List Char)
  | [] => ([], none)
  | c :: rest =>
    if c = 'e' ∨ c = 'E' then ([], some rest)
    else
      let me := splitExp rest
      (c :: me.1, me.2)

/-- The coefficient part `\d*(\.\d*)?` (with at least one digit) of a
`Decimal` literal: returns the digits as a number together with the number
of fractional digits. -/
def parseMantissa (s : List Char) : Option (Nat × Nat) :=
  let ip := s.takeWhile Char.isDigit
  let rest := s.dropWhile Char.isDigit
  match rest with
  | [] => if ip.isEmpty then none else some (digitsToNat ip, 0)
  | '.' :: rest2 =>
    let fp := rest2.takeWhile Char.isDigit
    let rest3 := rest2.dropWhile Char.isDigit
    if rest3.isEmpty && !(ip.isEmpty && fp.isEmpty) then
      some (digitsToNat (ip ++ fp), fp.length)
    else none
  | _ => none

/-- Exponent part of a `Decimal` literal: optional sign and digits. -/
def parseExp (s : List Char) : Option Int :=
  let p := splitSign s
  if !p.2.isEmpty && p.2.all Char.isDigit then
    some (if p.1 then -(digitsToNat p.2 : Int) else (digitsToNat p.2 : Int))
  else none

/-- The value of a Python `Decimal` as it can leave `parse_price`: a finite
number, or a quiet NaN carrying its sign and numeric diagnostic payload. -/
inductive PyDecimal where
  | num : Rat → PyDecimal
  | nan : Bool → Nat → PyDecimal
deriving DecidableEq

/-- A parsed Python `Decimal` literal: a finite literal (sign, coefficient,
decimal exponent), an infinity, a quiet NaN (sign, payload) or a signaling
NaN. -/
inductive DecLiteral where
  | fin : Bool → Nat → Int → DecLiteral
  | inf : DecLiteral
  | qnan : Bool → Nat → DecLiteral
  | snan : DecLiteral
deriving DecidableEq

/-- Parser of the Python `Decimal` string grammar (after the reference
implementation's blanket `value.replace("_", "")`):
`sign? (coefficient exponent? | Inf(inity) | (s)NaN digits*)`, the special
forms case-insensitive.  A signaling NaN's payload is not recorded: `quantize`
raises on it regardless. -/
def pyDecimalParse (s0 : List Char) : Option DecLiteral :=
  let s := s0.filter (fun c => c ≠ '_')
  let p := splitSign s
  let low := p.2.map Char.toLower
  if low = ['i', 'n', 'f'] ∨ low = ['i', 'n', 'f', 'i', 'n', 'i', 't', 'y'] then
    some .inf
  else if low.take 3 = ['n', 'a', 'n'] ∧ (low.drop 3).all Char.isDigit then
    some (.qnan p.1 (digitsToNat (low.drop 3)))
  else if low.take 4 = ['s', 'n', 'a', 'n'] ∧ (low.drop 4).all Char.isDigit then
    some .snan
  else
    let me := splitExp p.2
    match parseMantissa me.1, me.2 with
    | some m, none => some (.fin p.1 m.1 (-(m.2 : Int)))
    | some m, some es =>
      match parseExp es with
      | some e => some (.fin p.1 m.1 (e - (m.2 : Int)))
      | none => none
    | none, _ => none

/-- `Decimal.quantize(Decimal("0.01"), rounding=ROUND_HALF_UP)` on a parsed
literal `± coeff · 10^exp`: the exact number of cents rounded half-up (ties
away from zero, applied to the magnitude as `ROUND_HALF_UP` does), `none` when
the resulting coefficient would exceed the default context precision of 28
digits (`InvalidOperation`, caught by the same `except` clause). -/
def halfUpCoeff (num : Nat) (sc : Int) : Nat :=
  if 0 ≤ sc + 2 then num * 10 ^ (sc + 2).toNat
  else
    let d := 10 ^ (-(sc + 2)).toNat
    num / d + (if d ≤ 2 * (num % d) then 1 else 0)

/-- `Decimal.quantize(Decimal("0.01"), rounding=ROUND_HALF_UP)` on a parsed
literal `± coeff · 10^exp`, continued: apply the sign and the bound. -/
def decQuantize (neg : Bool) (num : Nat) (sc : Int) : Option Rat :=
  let n : Nat := halfUpCoeff num sc
  if n < 10 ^ 28 then
    some (mkRat (if neg then -(n : Int) else (n : Int)) 100)
  else none

/-- `Decimal(price_str).quantize(Decimal("0.01"), rounding=ROUND_HALF_UP)`
inside the `try` block of `parse_price`: `none` exactly when the source hits
the `except (ValueError, TypeError, InvalidOperation)` clause — an
unparseable literal, an infinity or a signaling NaN (`quantize` raises
`InvalidOperation` on both), or a finite result whose coefficient exceeds
the context precision of 28 digits.  A quiet NaN passes through `quantize`
unchanged except that its payload is truncated to its last 28 digits
(`_fix_nan`). -/
def pyDecimalQuant (s : List Char) : Option PyDecimal :=
  match pyDecimalParse s with
  | none => none
  | some (.fin neg num sc) => (decQuantize neg num sc).map PyDecimal.num
  | some .inf => none
  | some (.qnan neg pay) => some (.nan neg (pay % 10 ^ 28))
  | some .snan => none

/-- The two `ValueError`s raised by `parse_price`: `"Price is required"`
(MissingPriceError of the spec) and `"Invalid price format: {price_str}"`
(InvalidPriceFormatError of the spec, carrying the string it is raised with). -/
inductive PriceError where
  | missingPrice : PriceError
  | invalidFormat : String → PriceError
deriving DecidableEq

/-- The module-level `parse_price(price_str, required)` of the source:
treat `None` as `""`; strip currency markers, normalize the decimal comma,
trim; empty remainder is missing (fatal iff `required`); repair a leading
`.`; parse as exact `Decimal` and round half-up to 2 decimals; a parse
failure is invalid (fatal iff `required`). -/
def parse_price (priceStr : Option String) (required : Bool) : Except PriceError (Option PyDecimal) :=
  let t := normalizePriceChars (priceStr.getD "").toList
  if t.isEmpty then
    if required then .error .missingPrice else .ok none
  else
    let r := repairLeadingZero t
    match pyDecimalQuant r with
    | some v => .ok (some v)
    | none => if required then .error (.invalidFormat (String.mk r)) else .ok none

instance {ε α : Type} [DecidableEq ε] [DecidableEq α] : DecidableEq (Except ε α) :=
  fun a b =>
    match a, b with
    | .ok x, .ok y =>
      if h : x = y then .isTrue (by rw [h]) else .isFalse (by simp [h])
    | .error x, .error y =>
      if h : x = y then .isTrue (by rw [h]) else .isFalse (by simp [h])
    | .ok _, .error _ => .isFalse (by simp)
    | .error _, .ok _ => .isFalse (by simp)

/-! ## Data model

`ProductData` models the `data` dictionary built by `parse_csv_row` /
`parse_xml_product` and repaired by `fix_product_data`: the canonical string
fields, the price-typed fields as `Option PyDecimal` (`None` inside the dict
is `none`), and `special_price` doubly optional because `fix_product_data`
distinguishes the key being absent from the dict (`"special_price" not in
data`, outer `none`) from the key holding `None` (`some none`).  The unused
optional `Product` attributes (`packaging`, `initial_price`, `date_added`)
are omitted: no mapping or fixup rule ever touches them. -/
structure ProductData where
  product : String
  product_id : String
  brand : String
  quantity : String
  unit : String
  category : String
  barcode : String
  price : Option PyDecimal
  unit_price : Option PyDecimal
  special_price : Option (Option PyDecimal)
  best_price_30 : Option PyDecimal
  anchor_price : Option PyDecimal
  anchor_price_date : Option String
deriving DecidableEq

/-- The `Product` pydantic model: `price` and `unit_price` are required
(non-`None`) `Decimal`s, the remaining price attributes optional.  Pydantic
rejects non-finite `Decimal`s (v1 `DecimalIsNotFiniteError`, v2
`finite_number`), so the stored values are plain rationals. -/
structure Product where
  product : String
  product_id : String
  brand : String
  quantity : String
  unit : String
  category : String
  barcode : String
  price : Rat
  unit_price : Rat
  special_price : Option Rat
  best_price_30 : Option Rat
  anchor_price : Option Rat
  anchor_price_date : Option String
deriving DecidableEq

/-- The `Store` pydantic model. -/
structure Store where
  chain : String
  store_id : String
  name : String
  store_type : String
  city : String
  street_address : String
  zipcode : String
  items : List Product
deriving DecidableEq

/-! ## The record fixer (`BaseCrawler.fix_product_data`) -/

/-- The single record-level error of the fixer:
`ValueError("Price, special price, and unit price are all missing")`
(the spec's `PriceResolutionError`). -/
inductive FixError where
  | priceResolution : FixError
deriving DecidableEq

/-- `data["barcode"].replace('"', "").replace("'", "").strip()`. -/
def cleanBarcode (s : String) : String :=
  String.mk (pyStripList ((s.toList.filter (fun c => c ≠ dquote)).filter (fun c => c ≠ squote)))

/-- Fixer steps 1 and 2: synthesize `"{chain}:{product_id}"` when the barcode
is the empty string, then strip quote characters and surrounding whitespace. -/
def fixBarcode (chain : String) (d : ProductData) : ProductData :=
  let d1 := if d.barcode = "" then { d with barcode := chain ++ ":" ++ d.product_id } else d
  { d1 with barcode := cleanBarcode d1.barcode }

/-- Fixer step 3: `if "special_price" not in data: data["special_price"] = None`. -/
def fixSpecialKey (d : ProductData) : ProductData :=
  if d.special_price = none then { d with special_price := some none } else d

/-- Fixer step 4, the price fallback chain: when `price` is `None` take
`special_price` if set, else `unit_price` if set, else raise. -/
def resolvePrice (d : ProductData) : Except FixError ProductData :=
  match d.price with
  | some _ => .ok d
  | none =>
    match d.special_price.join with
    | none =>
      match d.unit_price with
      | some u => .ok { d with price := some u }
      | none => .error .priceResolution
    | some sp => .ok { d with price := some sp }

/-- Fixer step 5: when `anchor_price` is set and `data.get("anchor_price_date")`
is falsy (absent, `None`, or the empty string), default the date to
`datetime.date(2025, 5, 2).isoformat()`. -/
def fixAnchorDate (d : ProductData) : ProductData :=
  if d.anchor_price ≠ none ∧ (d.anchor_price_date = none ∨ d.anchor_price_date = some "") then
    { d with anchor_price_date := some "2025-05-02" }
  else d

/-- Fixer step 6: `if data["unit_price"] is None: data["unit_price"] = data["price"]`. -/
def fixUnitPrice (d : ProductData) : ProductData :=
  if d.unit_price = none then { d with unit_price := d.price } else d

/-- `BaseCrawler.fix_product_data(self, data)` with `chain = self.CHAIN`:
the six common fixups, in source order. -/
def fix_product_data (chain : String) (data : ProductData) : Except FixError ProductData :=
  match resolvePrice (fixSpecialKey (fixBarcode chain data)) with
  | .error e => .error e
  | .ok d => .ok (fixUnitPrice (fixAnchorDate d))

/-! ## Field extraction (`BaseCrawler.parse_csv_row`) and the CSV record loop -/

/-- The canonical price-typed fields (keys of a crawler's `PRICE_MAP`). -/
inductive PriceField where
  | price | unit_price | special_price | best_price_30 | anchor_price
deriving DecidableEq

/-- The canonical text fields (keys of a crawler's `FIELD_MAP`). -/
inductive TextField where
  | product | product_id | brand | quantity | unit | barcode | category
deriving DecidableEq

/-- The record-level exceptions of `parse_csv_row`, all caught by the caller
`parse_csv`: a propagated `parse_price` failure, the
`ValueError(f"Missing required field: {field}")`, the `AttributeError` from
`None.strip()` when a short row leaves a text column with `None`, a fixer
error, and a pydantic validation error. -/
inductive RowError where
  | price : PriceField → PriceError → RowError
  | missingField : TextField → RowError
  | nullField : TextField → RowError
  | fixup : FixError → RowError
  | validation : RowError
deriving DecidableEq

/-- The per-crawler static data: `CHAIN`, `PRICE_MAP` and `FIELD_MAP`
(each entry: canonical field, source column, `is_required`). -/
structure CrawlerConfig where
  chain : String
  priceMap : List (PriceField × String × Bool)
  fieldMap : List (TextField × String × Bool)

/-- One `csv.DictReader` row: the header columns paired with that row's
values; a value is `none` when the row was shorter than the header
(`restval = None`). -/
abbrev Row := List (String × Option String)

/-- `row.get(column)` on a `DictReader` row (a `dict`: on duplicate headers
the last value wins): `none` when the column is not a key at all. -/
def rowGet (row : Row) (col : String) : Option (Option String) :=
  (row.reverse.find? (fun p => p.1 = col)).map (fun p => p.2)

/-- The empty `data` dictionary at the top of `parse_csv_row`, as a total
record: fields never assigned by a crawler's maps keep these defaults
(string fields only ever read back by `fix_product_data` after being
assigned, so conflating an absent key with its default is faithful for
every configuration that, like all the crawlers in the source, maps every
field except `special_price` and `anchor_price_date`). -/
def emptyData : ProductData :=
  { product := "", product_id := "", brand := "", quantity := "", unit := "",
    category := "", barcode := "", price := none, unit_price := none,
    special_price := none, best_price_30 := none, anchor_price := none,
    anchor_price_date := none }

/-- `data[field] = value` for a price-typed field; for `special_price` the
key becomes present in the dict. -/
def setPrice (d : ProductData) : PriceField → Option PyDecimal → ProductData
  | .price, v => { d with price := v }
  | .unit_price, v => { d with unit_price := v }
  | .special_price, v => { d with special_price := some v }
  | .best_price_30, v => { d with best_price_30 := v }
  | .anchor_price, v => { d with anchor_price := v }

/-- `data[field] = value` for a text field. -/
def setText (d : ProductData) : TextField → String → ProductData
  | .product, v => { d with product := v }
  | .product_id, v => { d with product_id := v }
  | .brand, v => { d with brand := v }
  | .quantity, v => { d with quantity := v }
  | .unit, v => { d with unit := v }
  | .barcode, v => { d with barcode := v }
  | .category, v => { d with category := v }

/-- The `PRICE_MAP` loop of `parse_csv_row`: `value = row.get(column)`;
`parse_price(value, is_required)`; a failure is logged and re-raised. -/
def extractPriceFields (row : Row) : List (PriceField × String × Bool) → ProductData → Except RowError ProductData
  | [], d => .ok d
  | (f, col, req) :: rest, d =>
    match parse_price (rowGet row col).join req with
    | .ok v => extractPriceFields row rest (setPrice d f v)
    | .error e => .error (.price f e)

/-- The `FIELD_MAP` loop of `parse_csv_row`:
`value = row.get(column, "").strip()`; an empty required value raises
`Missing required field`; a `None` cell (short row) raises on `.strip()`. -/
def extractTextFields (row : Row) : List (TextField × String × Bool) → ProductData → Except RowError ProductData
  | [], d => .ok d
  | (f, col, req) :: rest, d =>
    match rowGet row col with
    | some none => .error (.nullField f)
    | none =>
      if req then .error (.missingField f)
      else extractTextFields row rest (setText d f "")
    | some (some s) =>
      let v := pyStrip s
      if v = "" ∧ req then .error (.missingField f)
      else extractTextFields row rest (setText d f v)

/-- Pydantic validation of one `Decimal` value: non-finite values are
rejected (pydantic v1 raises `DecimalIsNotFiniteError`, v2 a
`finite_number` error). -/
def finOf : PyDecimal → Option Rat
  | .num r => some r
  | .nan _ _ => none

/-- Pydantic validation of one `Optional[Decimal]` value. -/
def finOptOf : Option PyDecimal → Option (Option Rat)
  | none => some none
  | some (.num r) => some (some r)
  | some (.nan _ _) => none

/-- `Product(**data)`: pydantic validation requires `price` and `unit_price`
to be actual `Decimal`s and every supplied `Decimal` to be finite. -/
def mkProduct (d : ProductData) : Option Product :=
  match d.price, d.unit_price with
  | some p, some u =>
    match finOf p, finOf u, finOptOf d.special_price.join, finOptOf d.best_price_30,
        finOptOf d.anchor_price with
    | some pf, some uf, some spf, some bpf, some apf =>
      some { product := d.product, product_id := d.product_id, brand := d.brand,
             quantity := d.quantity, unit := d.unit, category := d.category,
             barcode := d.barcode, price := pf, unit_price := uf,
             special_price := spf, best_price_30 := bpf,
             anchor_price := apf, anchor_price_date := d.anchor_price_date }
    | _, _, _, _, _ => none
  | _, _ => none

/-- `BaseCrawler.parse_csv_row`: extract the price-typed fields, then the
text fields, run `fix_product_data`, and construct the `Product`. -/
def parse_csv_row (cfg : CrawlerConfig) (row : Row) : Except RowError Product :=
  match extractPriceFields row cfg.priceMap emptyData with
  | .error e => .error e
  | .ok d =>
    match extractTextFields row cfg.fieldMap d with
    | .error e => .error e
    | .ok d =>
      match fix_product_data cfg.chain d with
      | .error e => .error (.fixup e)
      | .ok d =>
        match mkProduct d with
        | some p => .ok p
        | none => .error .validation

/-! ### `read_csv` (`csv.DictReader` over `text.splitlines()`),
modelled for quote-free fields. -/

/-- `str.splitlines()` for `\n` / `\r\n` / `\r` terminated text (no final
empty line for a trailing terminator). -/
def splitlinesAux : List Char → List Char → List (List Char)
  | [], [] => []
  | [], acc => [acc.reverse]
  | '\r' :: '\n' :: rest, acc => acc.reverse :: splitlinesAux rest []
  | '\n' :: rest, acc => acc.reverse :: splitlinesAux rest []
  | '\r' :: rest, acc => acc.reverse :: splitlinesAux rest []
  | c :: rest, acc => splitlinesAux rest (c :: acc)

/-- `str.splitlines()`. -/
def pySplitlines (s : List Char) : List (List Char) := splitlinesAux s []

/-- One `csv.reader` line without quoting: split on the delimiter. -/
def splitField (delim : Char) : List Char → List (List Char)
  | [] => [[]]
  | c :: rest =>
    let r := splitField delim rest
    if c = delim then [] :: r
    else
      match r with
      | [] => [[c]]
      | f :: fs => (c :: f) :: fs

/-- `dict(zip(fieldnames, row))` with `restval = None` for missing values
and extra values dropped (they go to the `restkey`, which no crawler reads). -/
def mkRow : List String → List String → Row
  | [], _ => []
  | h :: hs, [] => (h, none) :: mkRow hs []
  | h :: hs, v :: vs => (h, some v) :: mkRow hs vs

/-- `BaseCrawler.read_csv`: `DictReader(text.splitlines(), delimiter=...)`.
The first line provides the field names (an empty first line yields none, as
`csv.reader` returns `[]` for a blank line); blank data lines are skipped by
`DictReader`.  Quoted CSV fields are outside this model. -/
def readCsv (content : String) (delim : Char) : List Row :=
  match pySplitlines content.toList with
  | [] => []
  | header :: dataLines =>
    let headers := if header = [] then [] else (splitField delim header).map String.mk
    (dataLines.filter (fun l => l ≠ [])).map
      (fun line => mkRow headers ((splitField delim line).map String.mk))

/-- `BaseCrawler.parse_csv`: parse each row, log-and-skip any row whose
`parse_csv_row` raises, append the successes in order. -/
def parse_csv (cfg : CrawlerConfig) (content : String) (delim : Char) : List Product :=
  (readCsv content delim).foldl
    (fun products row =>
      match parse_csv_row cfg row with
      | .ok p => products ++ [p]
      | .error _ => products) []

/-! ## The Eurospin crawler instance -/

/-- `EurospinCrawler`'s `CHAIN`, `PRICE_MAP` and `FIELD_MAP`. -/
def eurospinConfig : CrawlerConfig :=
  { chain := "eurospin"
    priceMap := [
      (.price, "MALOPROD.CIJENA(EUR)", true),
      (.unit_price, "CIJENA_ZA_JEDINICU_MJERE", true),
      (.special_price, "MPC_POSEB.OBLIK_PROD", false),
      (.best_price_30, "NAJNIŽA_MPC_U_30DANA", false),
      (.anchor_price, "SIDRENA_CIJENA", false)]
    fieldMap := [
      (.product, "NAZIV_PROIZVODA", true),
      (.product_id, "ŠIFRA_PROIZVODA", true),
      (.brand, "MARKA_PROIZVODA", false),
      (.quantity, "NETO_KOLIČINA", false),
      (.unit, "JEDINICA_MJERE", false),
      (.barcode, "BARKOD", false),
      (.category, "KATEGORIJA_PROIZVODA", false)]
  }

/-- `EurospinCrawler.get_store_prices`: parse the decoded CSV text with
delimiter `;` (its `except` clause can never fire in this model because
`parse_csv` is total). -/
def eurospin_get_store_prices (content : String) : List Product :=
  parse_csv eurospinConfig content ';'

/-- The loop of `EurospinCrawler.get_all_products` over the `(filename,
content)` entries yielded from the ZIP archive: parse the store from the
filename and the products from the content (skipping the entry when the
store locator fails), skip stores with no products, attach the products and
append.  `parseStoreInfo` stands for the source-specific
`parse_store_info` (string pattern matching on the filename, excluded from
the core), `getStorePrices` for `get_store_prices`. -/
def get_all_products_from (parseStoreInfo : String → Except String Store)
    (getStorePrices : String → List Product)
    (entries : List (String × String)) : List Store :=
  entries.foldl
    (fun stores e =>
      match parseStoreInfo e.1 with
      | .error _ => stores
      | .ok store =>
        let products := getStorePrices e.2
        if products.isEmpty then stores
        else stores ++ [{ store with items := products }]) []

/-! ## Rounding to two decimal places, value-level

`quantize2` is `Decimal.quantize(Decimal("0.01"), rounding=ROUND_HALF_UP)`
stated on the numeric value: round the number of cents half-up (ties away
from zero, on the magnitude), failing when the resulting coefficient
exceeds the context precision of 28 digits. -/

/-- Round `100 * q` to the nearest integer, ties away from zero. -/
def roundHalfUpCents (q : Rat) : Int :=
  if 0 ≤ q then ⌊100 * q + 1 / 2⌋ else -⌊100 * (-q) + 1 / 2⌋

/-- Half-up quantization of a value to exactly 2 fractional digits. -/
def quantize2 (q : Rat) : Option Rat :=
  if (roundHalfUpCents q).natAbs < 10 ^ 28 then
    some ((roundHalfUpCents q : Rat) / 100)
  else none

/-! ## Supporting lemmas -/

theorem mkRat_eq_div (n : Int) (d : Nat) : mkRat n d = (n : Rat) / (d : Rat) := by
  rw [Rat.mkRat_eq_divInt, Rat.divInt_eq_div]
  norm_num

theorem floor_half_rat : ⌊(1 / 2 : Rat)⌋ = 0 := by
  rw [Int.floor_eq_zero_iff]
  constructor <;> norm_num

theorem roundHalfUpCents_intCast_div (n : Int) : roundHalfUpCents ((n : Rat) / 100) = n := by
  unfold roundHalfUpCents
  rcases le_or_lt 0 n with hn | hn
  · have hq : (0 : Rat) ≤ (n : Rat) / 100 := by positivity
    rw [if_pos hq]
    have : (100 : Rat) * ((n : Rat) / 100) + 1 / 2 = 1 / 2 + (n : Rat) := by
      field_simp
      ring
    rw [this, Int.floor_add_int, floor_half_rat]
    omega
  · have hq : ¬(0 ≤ (n : Rat) / 100) := by
      simp only [not_le]
      apply div_neg_of_neg_of_pos _ (by norm_num)
      exact_mod_cast hn
    rw [if_neg hq]
    have : (100 : Rat) * (-((n : Rat) / 100)) + 1 / 2 = 1 / 2 + ((-n : Int) : Rat) := by
      push_cast
      field_simp
      ring
    rw [this, Int.floor_add_int, floor_half_rat]
    omega

theorem quantize2_mkRat_100 (n : Int) (h : n.natAbs < 10 ^ 28) :
    quantize2 (mkRat n 100) = some (mkRat n 100) := by
  have hm : mkRat n 100 = (n : Rat) / 100 := by
    rw [mkRat_eq_div]; norm_num
  rw [hm]
  unfold quantize2
  rw [roundHalfUpCents_intCast_div, if_pos h]

theorem decQuantize_shape (neg : Bool) (num : Nat) (sc : Int) (v : Rat)
    (h : decQuantize neg num sc = some v) :
    ∃ n : Int, n.natAbs < 10 ^ 28 ∧ v = mkRat n 100 := by
  simp only [decQuantize] at h
  split at h
  · rename_i hlt
    refine ⟨(if neg then -(halfUpCoeff num sc : Int) else (halfUpCoeff num sc : Int)), ?_, ?_⟩
    · cases neg <;> simpa using hlt
    · simpa using h.symm
  · exact absurd h (by simp)

theorem parse_price_ok_shape (s : Option String) (r : Bool) (v : PyDecimal)
    (h : parse_price s r = .ok (some v)) :
    (∃ n : Int, n.natAbs < 10 ^ 28 ∧ v = .num (mkRat n 100)) ∨
    (∃ neg pay, v = .nan neg pay) := by
  simp only [parse_price] at h
  split at h
  · split at h <;> simp_all
  · split at h
    · rename_i w hq
      simp only [Except.ok.injEq, Option.some.injEq] at h
      subst h
      unfold pyDecimalQuant at hq
      split at hq
      · exact absurd hq (by simp)
      · rcases Option.map_eq_some'.mp hq with ⟨r0, hdq, hw⟩
        obtain ⟨n, hn, hr0⟩ := decQuantize_shape _ _ _ _ hdq
        exact Or.inl ⟨n, hn, by rw [← hw, hr0]⟩
      · exact absurd hq (by simp)
      · simp only [Option.some.injEq] at hq
        exact Or.inr ⟨_, _, hq.symm⟩
      · exact absurd hq (by simp)
    · split at h <;> simp_all

section StripLemmas

variable {p : Char → Bool}

theorem dropWhile_idem (l : List Char) : (l.dropWhile p).dropWhile p = l.dropWhile p := by
  induction l with
  | nil => rfl
  | cons c rest ih =>
    by_cases h : p c
    · simp [List.dropWhile_cons, h, ih]
    · simp [List.dropWhile_cons, h]

theorem head?_dropWhile (l : List Char) (c : Char) (h : (l.dropWhile p).head? = some c) :
    p c = false := by
  induction l with
  | nil => simp at h
  | cons x rest ih =>
    by_cases hx : p x
    · rw [List.dropWhile_cons, if_pos hx] at h
      exact ih h
    · rw [List.dropWhile_cons, if_neg hx] at h
      simp only [List.head?_cons, Option.some.injEq] at h
      rw [← h]
      exact Bool.of_not_eq_true hx

theorem getLast?_dropWhile (l : List Char) (h : l.dropWhile p ≠ []) :
    (l.dropWhile p).getLast? = l.getLast? := by
  induction l with
  | nil => simp at h
  | cons x rest ih =>
    by_cases hx : p x
    · rw [List.dropWhile_cons, if_pos hx] at h ⊢
      rw [ih h]
      have hr : rest ≠ [] := by
        intro he
        exact h (by simp [he])
      cases rest with
      | nil => exact absurd rfl hr
      | cons y ys => simp [List.getLast?_cons_cons]
    · rw [List.dropWhile_cons, if_neg hx]

theorem mem_dropWhile_of_mem (l : List Char) (c : Char) (hc : c ∈ l) (hp : p c = false) :
    c ∈ l.dropWhile p := by
  induction l with
  | nil => simp at hc
  | cons x rest ih =>
    by_cases hx : p x
    · rw [List.dropWhile_cons, if_pos hx]
      rcases List.mem_cons.mp hc with he | hm
      · subst he; rw [hp] at hx; simp at hx
      · exact ih hm
    · rw [List.dropWhile_cons, if_neg hx]
      exact hc

theorem mem_of_mem_dropWhile (l : List Char) (c : Char) (hc : c ∈ l.dropWhile p) : c ∈ l :=
  (List.dropWhile_sublist p).mem hc

theorem mem_of_mem_pyStripList (l : List Char) (c : Char) (hc : c ∈ pyStripList l) : c ∈ l := by
  unfold pyStripList at hc
  rw [List.mem_reverse] at hc
  have := mem_of_mem_dropWhile _ _ hc
  rw [List.mem_reverse] at this
  exact mem_of_mem_dropWhile _ _ this

theorem mem_pyStripList_of_mem (l : List Char) (c : Char) (hc : c ∈ l)
    (hp : isPyWs c = false) : c ∈ pyStripList l := by
  unfold pyStripList
  rw [List.mem_reverse]
  apply mem_dropWhile_of_mem _ _ _ hp
  rw [List.mem_reverse]
  exact mem_dropWhile_of_mem _ _ hc hp

theorem pyStripList_idem (l : List Char) : pyStripList (pyStripList l) = pyStripList l := by
  unfold pyStripList
  set u := l.dropWhile isPyWs with hu
  set v := (u.reverse).dropWhile isPyWs with hv
  have hdrop : v.reverse.dropWhile isPyWs = v.reverse := by
    cases hvr : v.reverse.head? with
    | none =>
      have : v.reverse = [] := List.head?_eq_none_iff.mp hvr
      simp [this]
    | some c =>
      have hlast : v.getLast? = some c := by
        rw [← List.head?_reverse]; exact hvr
      have hvne : v ≠ [] := by
        intro he; rw [he] at hlast; simp at hlast
      have hlast2 : u.reverse.getLast? = some c := by
        rw [← getLast?_dropWhile u.reverse (hv ▸ hvne), ← hv]
        exact hlast
      have hhead : u.head? = some c := by
        rw [← List.getLast?_reverse]; exact hlast2
      have hpc : isPyWs c = false := by
        cases hun : u with
        | nil => rw [hun] at hhead; simp at hhead
        | cons a b =>
          have : a = c := by rw [hun] at hhead; simpa using hhead
          subst this
          have : u.dropWhile isPyWs = u := by rw [hu]; exact dropWhile_idem l
          rw [hun] at this
          by_cases hpa : isPyWs a
          · rw [List.dropWhile_cons, if_pos hpa] at this
            have hlen : (b.dropWhile isPyWs).length = b.length + 1 := by rw [this]; simp
            have hle := (List.dropWhile_sublist (l := b) isPyWs).length_le
            omega
          · exact Bool.of_not_eq_true hpa
      cases hvrr : v.reverse with
      | nil => rfl
      | cons a b =>
        have : a = c := by rw [hvrr] at hvr; simpa using hvr
        subst this
        rw [List.dropWhile_cons, if_neg (by rw [hpc]; simp)]
  rw [hdrop, List.reverse_reverse]
  have : v.dropWhile isPyWs = v := by rw [hv]; exact dropWhile_idem u.reverse
  rw [this]

theorem pyStripList_append_ws (l : List Char) (c : Char) (hc : isPyWs c = true) :
    pyStripList (l ++ [c]) = pyStripList l := by
  unfold pyStripList
  rw [List.dropWhile_append]
  split
  · rename_i he
    rw [List.isEmpty_iff] at he
    simp [List.dropWhile_cons, hc, he]
  · rw [List.reverse_append]
    simp only [List.reverse_cons, List.reverse_nil, List.nil_append, List.singleton_append]
    rw [List.dropWhile_cons, if_pos hc]

theorem pyStripList_cons_ws (l : List Char) (c : Char) (hc : isPyWs c = true) :
    pyStripList (c :: l) = pyStripList l := by
  unfold pyStripList
  rw [List.dropWhile_cons, if_pos hc]

end StripLemmas

section RemoveEURLemmas

theorem removeEUR_cons_not_E (c : Char) (l : List Char) (hc : ¬c = 'E') :
    removeEUR (c :: l) = c :: removeEUR l := by
  match l with
  | [] => rfl
  | [c2] => rfl
  | c2 :: c3 :: rest =>
    rw [removeEUR, if_neg (by tauto)]

theorem removeEUR_append_space (l : List Char) :
    removeEUR (l ++ [' ']) = removeEUR l ++ [' '] := by
  induction l using removeEUR.induct with
  | case1 => rfl
  | case2 c =>
    show removeEUR [c, ' '] = [c, ' ']
    rfl
  | case3 c1 c2 =>
    show removeEUR [c1, c2, ' '] = [c1, c2, ' ']
    rw [removeEUR, if_neg (by simp), removeEUR.eq_3]
  | case4 c1 c2 c3 rest h ih =>
    show removeEUR (c1 :: c2 :: c3 :: (rest ++ [' '])) = _
    rw [removeEUR, if_pos h, removeEUR, if_pos h, ih]
  | case5 c1 c2 c3 rest h ih =>
    show removeEUR (c1 :: c2 :: c3 :: (rest ++ [' '])) = _
    rw [removeEUR, if_neg h, removeEUR, if_neg h]
    simpa using ih

theorem removeEUR_append_EUR (l : List Char) :
    removeEUR (l ++ [' ', 'E', 'U', 'R']) = removeEUR l ++ [' '] := by
  induction l using removeEUR.induct with
  | case1 => rfl
  | case2 c =>
    show removeEUR (c :: [' ', 'E', 'U', 'R']) = [c, ' ']
    rw [removeEUR, if_neg (by simp)]
    rfl
  | case3 c1 c2 =>
    show removeEUR (c1 :: c2 :: [' ', 'E', 'U', 'R']) = [c1, c2, ' ']
    rw [removeEUR, if_neg (by simp), removeEUR, if_neg (by simp)]
    rfl
  | case4 c1 c2 c3 rest h ih =>
    show removeEUR (c1 :: c2 :: c3 :: (rest ++ [' ', 'E', 'U', 'R'])) = _
    rw [removeEUR, if_pos h, removeEUR, if_pos h, ih]
  | case5 c1 c2 c3 rest h ih =>
    show removeEUR (c1 :: c2 :: c3 :: (rest ++ [' ', 'E', 'U', 'R'])) = _
    rw [removeEUR, if_neg h, removeEUR, if_neg h]
    simpa using ih

theorem commaToDot_eq_E_iff (c : Char) : (commaToDot c = 'E') = (c = 'E') := by
  unfold commaToDot
  by_cases h : c = ',' <;> simp [h]

theorem commaToDot_eq_U_iff (c : Char) : (commaToDot c = 'U') = (c = 'U') := by
  unfold commaToDot
  by_cases h : c = ',' <;> simp [h]

theorem commaToDot_eq_R_iff (c : Char) : (commaToDot c = 'R') = (c = 'R') := by
  unfold commaToDot
  by_cases h : c = ',' <;> simp [h]

theorem removeEUR_map_commaToDot (l : List Char) :
    removeEUR (l.map commaToDot) = (removeEUR l).map commaToDot := by
  induction l using removeEUR.induct with
  | case1 => rfl
  | case2 c => rfl
  | case3 c1 c2 => rfl
  | case4 c1 c2 c3 rest h ih =>
    show removeEUR (commaToDot c1 :: commaToDot c2 :: commaToDot c3 :: rest.map commaToDot) = _
    rw [removeEUR,
      if_pos (by rw [commaToDot_eq_E_iff, commaToDot_eq_U_iff, commaToDot_eq_R_iff]; exact h),
      removeEUR, if_pos h, ih]
  | case5 c1 c2 c3 rest h ih =>
    show removeEUR (commaToDot c1 :: commaToDot c2 :: commaToDot c3 :: rest.map commaToDot) = _
    rw [removeEUR,
      if_neg (by rw [commaToDot_eq_E_iff, commaToDot_eq_U_iff, commaToDot_eq_R_iff]; exact h),
      removeEUR, if_neg h]
    simpa using ih

end RemoveEURLemmas

section FixerLemmas

theorem fixBarcode_eq (chain : String) (d : ProductData) :
    fixBarcode chain d =
      { d with barcode :=
          cleanBarcode (if d.barcode = "" then chain ++ ":" ++ d.product_id else d.barcode) } := by
  unfold fixBarcode
  by_cases h : d.barcode = "" <;> simp [h]

theorem fixSpecialKey_eq (d : ProductData) :
    fixSpecialKey d = { d with special_price := some d.special_price.join } := by
  unfold fixSpecialKey
  cases hs : d.special_price with
  | none => simp
  | some v =>
    rw [if_neg (by simp [hs])]
    have hj : (some v).join = v := rfl
    rw [hj, ← hs]

theorem fixAnchorDate_price (d : ProductData) : (fixAnchorDate d).price = d.price := by
  unfold fixAnchorDate
  split <;> rfl

theorem fixAnchorDate_unit_price (d : ProductData) : (fixAnchorDate d).unit_price = d.unit_price := by
  unfold fixAnchorDate
  split <;> rfl

theorem fixAnchorDate_barcode (d : ProductData) : (fixAnchorDate d).barcode = d.barcode := by
  unfold fixAnchorDate
  split <;> rfl

theorem fixAnchorDate_special (d : ProductData) : (fixAnchorDate d).special_price = d.special_price := by
  unfold fixAnchorDate
  split <;> rfl

theorem fixAnchorDate_anchor (d : ProductData) : (fixAnchorDate d).anchor_price = d.anchor_price := by
  unfold fixAnchorDate
  split <;> rfl

theorem fixUnitPrice_price (d : ProductData) : (fixUnitPrice d).price = d.price := by
  unfold fixUnitPrice
  split <;> rfl

theorem fixUnitPrice_barcode (d : ProductData) : (fixUnitPrice d).barcode = d.barcode := by
  unfold fixUnitPrice
  split <;> rfl

theorem fixUnitPrice_special (d : ProductData) : (fixUnitPrice d).special_price = d.special_price := by
  unfold fixUnitPrice
  split <;> rfl

theorem fixUnitPrice_anchor (d : ProductData) : (fixUnitPrice d).anchor_price = d.anchor_price := by
  unfold fixUnitPrice
  split <;> rfl

theorem fixUnitPrice_anchor_date (d : ProductData) :
    (fixUnitPrice d).anchor_price_date = d.anchor_price_date := by
  unfold fixUnitPrice
  split <;> rfl

theorem resolvePrice_price_some (d e : ProductData) (h : resolvePrice d = .ok e) :
    e.price ≠ none := by
  unfold resolvePrice at h
  split at h
  · rename_i p hp
    cases h
    simp [hp]
  · split at h
    · split at h
      · cases h; simp
      · cases h
    · cases h; simp

theorem fix_ok_price_some (chain : String) (d d' : ProductData)
    (h : fix_product_data chain d = .ok d') : d'.price ≠ none := by
  unfold fix_product_data at h
  split at h
  · cases h
  · rename_i e he
    cases h
    rw [fixUnitPrice_price, fixAnchorDate_price]
    exact resolvePrice_price_some _ _ he

theorem mem_cleanBarcode (s : String) (c : Char) (hc : c ∈ (cleanBarcode s).toList) :
    c ≠ dquote ∧ c ≠ squote := by
  have hc2 : c ∈ (s.toList.filter (fun x => x ≠ dquote)).filter (fun x => x ≠ squote) :=
    mem_of_mem_pyStripList _ _ hc
  have h1 := (List.mem_filter.mp hc2).2
  have hc3 := (List.mem_filter.mp hc2).1
  have h2 := (List.mem_filter.mp hc3).2
  constructor
  · simpa using h2
  · simpa using h1

theorem cleanBarcode_idem (s : String) : cleanBarcode (cleanBarcode s) = cleanBarcode s := by
  unfold cleanBarcode
  have htl : (String.mk (pyStripList ((s.toList.filter (fun x => x ≠ dquote)).filter
      (fun x => x ≠ squote)))).toList
      = pyStripList ((s.toList.filter (fun x => x ≠ dquote)).filter (fun x => x ≠ squote)) := rfl
  rw [htl]
  set y := (s.toList.filter (fun x => x ≠ dquote)).filter (fun x => x ≠ squote) with hy
  have h1 : (pyStripList y).filter (fun x => x ≠ dquote) = pyStripList y := by
    apply List.filter_eq_self.mpr
    intro a ha
    have := (List.mem_filter.mp ((List.mem_filter.mp (hy ▸ mem_of_mem_pyStripList _ _ ha)).1)).2
    exact this
  have h2 : (pyStripList y).filter (fun x => x ≠ squote) = pyStripList y := by
    apply List.filter_eq_self.mpr
    intro a ha
    have := (List.mem_filter.mp (hy ▸ mem_of_mem_pyStripList _ _ ha)).2
    exact this
  rw [h1, h2, pyStripList_idem]

theorem cleanBarcode_synth_ne_empty (chain pid : String) :
    cleanBarcode (chain ++ ":" ++ pid) ≠ "" := by
  have hmem : ':' ∈ (chain ++ ":" ++ pid).toList := by
    show ':' ∈ (chain ++ ":" ++ pid).data
    simp [String.data_append]
  have h1 : ':' ∈ ((chain ++ ":" ++ pid).toList.filter (fun x => x ≠ dquote)) :=
    List.mem_filter.mpr ⟨hmem, by decide⟩
  have h2 : ':' ∈ ((chain ++ ":" ++ pid).toList.filter (fun x => x ≠ dquote)).filter
      (fun x => x ≠ squote) :=
    List.mem_filter.mpr ⟨h1, by decide⟩
  have h3 : ':' ∈ pyStripList (((chain ++ ":" ++ pid).toList.filter (fun x => x ≠ dquote)).filter
      (fun x => x ≠ squote)) :=
    mem_pyStripList_of_mem _ _ h2 (by decide)
  intro he
  have : (cleanBarcode (chain ++ ":" ++ pid)).toList = [] := by rw [he]; rfl
  unfold cleanBarcode at this
  rw [show (String.mk (pyStripList (((chain ++ ":" ++ pid).toList.filter
      (fun x => x ≠ dquote)).filter (fun x => x ≠ squote)))).toList
      = pyStripList (((chain ++ ":" ++ pid).toList.filter (fun x => x ≠ dquote)).filter
      (fun x => x ≠ squote)) from rfl] at this
  rw [this] at h3
  exact absurd h3 (List.not_mem_nil _)

end FixerLemmas

section LoopLemmas

theorem parse_csv_eq_filterMap (cfg : CrawlerConfig) (content : String) (delim : Char) :
    parse_csv cfg content delim =
      (readCsv content delim).filterMap (fun r => (parse_csv_row cfg r).toOption) := by
  unfold parse_csv
  generalize readCsv content delim = rows
  suffices h : ∀ acc : List Product,
      rows.foldl
        (fun products row =>
          match parse_csv_row cfg row with
          | .ok p => products ++ [p]
          | .error _ => products) acc
        = acc ++ rows.filterMap (fun r => (parse_csv_row cfg r).toOption) by
    simpa using h []
  induction rows with
  | nil => simp
  | cons r rs ih =>
    intro acc
    rw [List.foldl_cons, List.filterMap_cons]
    cases hr : parse_csv_row cfg r with
    | ok p => simp [hr, ih, Except.toOption]
    | error e => simp [hr, ih, Except.toOption]

theorem get_all_products_from_eq_filterMap (ps : String → Except String Store)
    (gp : String → List Product) (entries : List (String × String)) :
    get_all_products_from ps gp entries =
      entries.filterMap (fun e =>
        match ps e.1 with
        | .error _ => none
        | .ok store =>
          if (gp e.2).isEmpty then none else some { store with items := gp e.2 }) := by
  unfold get_all_products_from
  suffices h : ∀ acc : List Store,
      entries.foldl
        (fun stores e =>
          match ps e.1 with
          | .error _ => stores
          | .ok store =>
            let products := gp e.2
            if products.isEmpty then stores
            else stores ++ [{ store with items := products }]) acc
        = acc ++ entries.filterMap (fun e =>
            match ps e.1 with
            | .error _ => none
            | .ok store =>
              if (gp e.2).isEmpty then none else some { store with items := gp e.2 }) by
    simpa using h []
  induction entries with
  | nil => simp
  | cons e es ih =>
    intro acc
    rw [List.foldl_cons, List.filterMap_cons]
    cases he : ps e.1 with
    | error err =>
      rw [ih]
      try simp [he]
    | ok store =>
      by_cases hp : (gp e.2).isEmpty
      · rw [ih]
        try simp [he, hp]
      · rw [ih]
        try simp [he, hp]

end LoopLemmas

section NormalizeLemmas

theorem commaToDot_space : commaToDot ' ' = ' ' := rfl

theorem commaToDot_comp (c : Char) : commaToDot (commaToDot c) = commaToDot c := by
  unfold commaToDot
  by_cases h : c = ',' <;> simp [h]

theorem filter_euro_map_commaToDot (l : List Char) :
    (l.map commaToDot).filter (fun c => c ≠ '€') = (l.filter (fun c => c ≠ '€')).map commaToDot := by
  rw [List.filter_map]
  congr 1
  apply List.filter_congr
  intro c _
  show decide (commaToDot c ≠ '€') = decide (c ≠ '€')
  unfold commaToDot
  by_cases h : c = ',' <;> simp [h]

theorem normalizePriceChars_append_euro (l : List Char) :
    normalizePriceChars (l ++ ['€']) = normalizePriceChars l := by
  unfold normalizePriceChars
  rw [List.filter_append]
  simp

theorem normalizePriceChars_append_EUR (l : List Char) :
    normalizePriceChars (l ++ [' ', 'E', 'U', 'R']) = normalizePriceChars l := by
  unfold normalizePriceChars
  rw [List.filter_append,
    show ([' ', 'E', 'U', 'R'] : List Char).filter (fun c => c ≠ '€') = [' ', 'E', 'U', 'R'] by decide,
    removeEUR_append_EUR, List.map_append]
  rw [show ([' '] : List Char).map commaToDot = [' '] by decide]
  exact pyStripList_append_ws _ _ (by decide)

theorem normalizePriceChars_map_commaToDot (l : List Char) :
    normalizePriceChars (l.map commaToDot) = normalizePriceChars l := by
  unfold normalizePriceChars
  rw [filter_euro_map_commaToDot, removeEUR_map_commaToDot, List.map_map]
  congr 1
  apply List.map_congr_left
  intro c _
  exact commaToDot_comp c

theorem normalizePriceChars_cons_space (l : List Char) :
    normalizePriceChars (' ' :: l) = normalizePriceChars l := by
  unfold normalizePriceChars
  rw [show ((' ' :: l).filter (fun c => c ≠ '€')) = ' ' :: l.filter (fun c => c ≠ '€') by simp,
    removeEUR_cons_not_E ' ' _ (by decide), List.map_cons, commaToDot_space]
  exact pyStripList_cons_ws _ _ (by decide)

theorem normalizePriceChars_append_space (l : List Char) :
    normalizePriceChars (l ++ [' ']) = normalizePriceChars l := by
  unfold normalizePriceChars
  rw [List.filter_append,
    show ([' '] : List Char).filter (fun c => c ≠ '€') = [' '] by decide,
    removeEUR_append_space, List.map_append]
  rw [show ([' '] : List Char).map commaToDot = [' '] by decide]
  exact pyStripList_append_ws _ _ (by decide)

theorem parse_price_congr (l l' : List Char)
    (h : normalizePriceChars l = normalizePriceChars l') (r : Bool) :
    parse_price (some (String.mk l)) r = parse_price (some (String.mk l')) r := by
  unfold parse_price
  rw [show ((some (String.mk l)).getD "").toList = l from rfl,
    show ((some (String.mk l')).getD "").toList = l' from rfl, h]

end NormalizeLemmas

section FixCharacterization

theorem fix_inner_fields (chain : String) (d : ProductData) :
    (fixSpecialKey (fixBarcode chain d)).price = d.price ∧
    (fixSpecialKey (fixBarcode chain d)).special_price = some d.special_price.join ∧
    (fixSpecialKey (fixBarcode chain d)).unit_price = d.unit_price ∧
    (fixSpecialKey (fixBarcode chain d)).anchor_price = d.anchor_price ∧
    (fixSpecialKey (fixBarcode chain d)).anchor_price_date = d.anchor_price_date ∧
    (fixSpecialKey (fixBarcode chain d)).barcode =
      cleanBarcode (if d.barcode = "" then chain ++ ":" ++ d.product_id else d.barcode) ∧
    (fixSpecialKey (fixBarcode chain d)).product_id = d.product_id := by
  rw [fixSpecialKey_eq, fixBarcode_eq]
  exact ⟨rfl, rfl, rfl, rfl, rfl, rfl, rfl⟩

theorem resolvePrice_of_price_some (d : ProductData) (p : PyDecimal) (hp : d.price = some p) :
    resolvePrice d = .ok d := by
  simp [resolvePrice, hp]

theorem resolvePrice_of_special (d : ProductData) (hp : d.price = none) (v : PyDecimal)
    (hs : d.special_price.join = some v) :
    resolvePrice d = .ok { d with price := some v } := by
  cases hsp : d.special_price with
  | none => rw [hsp] at hs; exact absurd hs (by simp [Option.join])
  | some w =>
    rw [hsp] at hs
    have hw : w = some v := by simpa [Option.join] using hs
    subst hw
    simp [resolvePrice, hp, hsp, Option.join]

theorem resolvePrice_of_unit (d : ProductData) (hp : d.price = none)
    (hs : d.special_price.join = none) (u : PyDecimal) (hu : d.unit_price = some u) :
    resolvePrice d = .ok { d with price := some u } := by
  cases hsp : d.special_price with
  | none => simp [resolvePrice, hp, hsp, hu, Option.join]
  | some w =>
    rw [hsp] at hs
    have hw : w = none := by simpa [Option.join] using hs
    subst hw
    simp [resolvePrice, hp, hsp, hu, Option.join]

theorem resolvePrice_all_missing (d : ProductData) (hp : d.price = none)
    (hs : d.special_price.join = none) (hu : d.unit_price = none) :
    resolvePrice d = .error .priceResolution := by
  cases hsp : d.special_price with
  | none => simp [resolvePrice, hp, hsp, hu, Option.join]
  | some w =>
    rw [hsp] at hs
    have hw : w = none := by simpa [Option.join] using hs
    subst hw
    simp [resolvePrice, hp, hsp, hu, Option.join]

theorem fix_of_resolve (chain : String) (d d4 : ProductData)
    (h : resolvePrice (fixSpecialKey (fixBarcode chain d)) = .ok d4) :
    fix_product_data chain d = .ok (fixUnitPrice (fixAnchorDate d4)) := by
  unfold fix_product_data
  rw [h]

end FixCharacterization

/-! ## The claims -/

/-- Claim C1: the price fallback chain of `fix_product_data`.  When the
extracted `price` is absent the fixed price is `special_price` when that is
present, else `unit_price` when that is present; when all three are absent
the fixer raises (`PriceResolutionError`); and every record the fixer
returns has a non-null price. -/
theorem claim_C1 (chain : String) (d : ProductData) (hp : d.price = none) :
    (∀ v : PyDecimal, d.special_price.join = some v →
        ∃ d', fix_product_data chain d = .ok d' ∧ d'.price = some v) ∧
    (d.special_price.join = none → ∀ u : PyDecimal, d.unit_price = some u →
        ∃ d', fix_product_data chain d = .ok d' ∧ d'.price = some u) ∧
    (d.special_price.join = none → d.unit_price = none →
        fix_product_data chain d = .error .priceResolution) ∧
    (∀ e e' : ProductData, fix_product_data chain e = .ok e' → e'.price ≠ none) := by
  obtain ⟨h3p, h3s, h3u, _, _, _, _⟩ := fix_inner_fields chain d
  refine ⟨?_, ?_, ?_, ?_⟩
  · intro v hv
    have hres := resolvePrice_of_special (fixSpecialKey (fixBarcode chain d))
      (h3p.trans hp) v (by rw [h3s]; exact hv)
    refine ⟨_, fix_of_resolve chain d _ hres, ?_⟩
    rw [fixUnitPrice_price, fixAnchorDate_price]
  · intro hs u hu
    have hres := resolvePrice_of_unit (fixSpecialKey (fixBarcode chain d))
      (h3p.trans hp) (by rw [h3s]; exact hs) u (h3u.trans hu)
    refine ⟨_, fix_of_resolve chain d _ hres, ?_⟩
    rw [fixUnitPrice_price, fixAnchorDate_price]
  · intro hs hu
    have hres := resolvePrice_all_missing (fixSpecialKey (fixBarcode chain d))
      (h3p.trans hp) (by rw [h3s]; exact hs) (h3u.trans hu)
    unfold fix_product_data
    rw [hres]
  · intro e e' he
    exact fix_ok_price_some chain e e' he

def w1data : ProductData :=
  { emptyData with
    product_id := "1"
    barcode := "b"
    price := none
    special_price := some (some (PyDecimal.num (mkRat 500 100)))
    unit_price := some (PyDecimal.num (mkRat 400 100)) }

/-- Witness for C1 at a concrete record: price absent, special price 5.00,
unit price 4.00; the fixed price is the special price. -/
theorem claim_C1_witness :
    ∃ d', fix_product_data "eurospin" w1data = .ok d' ∧ d'.price = some (PyDecimal.num (mkRat 500 100)) :=
  (claim_C1 "eurospin" w1data (by decide)).1 (PyDecimal.num (mkRat 500 100)) (by decide)

/-- Claim C9 (implicit): when at least one of `price`, `special_price` and
`unit_price` carries a value, `fix_product_data` cannot raise
`PriceResolutionError` and the returned record's price is present. -/
theorem claim_C9 (chain : String) (d : ProductData)
    (h : d.price ≠ none ∨ d.special_price.join ≠ none ∨ d.unit_price ≠ none) :
    ∃ d', fix_product_data chain d = .ok d' ∧ d'.price ≠ none := by
  obtain ⟨h3p, h3s, h3u, _, _, _, _⟩ := fix_inner_fields chain d
  have step : ∀ d4 : ProductData,
      resolvePrice (fixSpecialKey (fixBarcode chain d)) = .ok d4 →
      ∃ d', fix_product_data chain d = .ok d' ∧ d'.price ≠ none := by
    intro d4 hres
    refine ⟨_, fix_of_resolve chain d _ hres, ?_⟩
    rw [fixUnitPrice_price, fixAnchorDate_price]
    exact resolvePrice_price_some _ _ hres
  rcases hpc : d.price with _ | p
  · rcases hsc : d.special_price.join with _ | v
    · rcases huc : d.unit_price with _ | u
      · rcases h with h | h | h
        · exact absurd hpc h
        · exact absurd hsc h
        · exact absurd huc h
      · exact step _ (resolvePrice_of_unit _ (h3p.trans hpc)
          (by rw [h3s]; exact hsc) u (h3u.trans huc))
    · exact step _ (resolvePrice_of_special _ (h3p.trans hpc) v (by rw [h3s]; exact hsc))
  · exact step _ (resolvePrice_of_price_some _ p (h3p.trans hpc))

def w9data : ProductData :=
  { emptyData with
    product_id := "2"
    barcode := "bb"
    price := some (PyDecimal.num (mkRat 100 100))
    unit_price := none
    special_price := none }

/-- Witness for C9 at a concrete record with only `price` present. -/
theorem claim_C9_witness :
    ∃ d', fix_product_data "eurospin" w9data = .ok d' ∧ d'.price ≠ none :=
  claim_C9 "eurospin" w9data (Or.inl (by decide))

section BarcodeCharacterization

theorem resolvePrice_preserves (d e : ProductData) (h : resolvePrice d = .ok e) :
    e.barcode = d.barcode ∧ e.special_price = d.special_price ∧
    e.unit_price = d.unit_price ∧ e.anchor_price = d.anchor_price ∧
    e.anchor_price_date = d.anchor_price_date := by
  unfold resolvePrice at h
  split at h
  · cases h
    exact ⟨rfl, rfl, rfl, rfl, rfl⟩
  · split at h
    · split at h
      · cases h
        exact ⟨rfl, rfl, rfl, rfl, rfl⟩
      · exact absurd h (by simp)
    · cases h
      exact ⟨rfl, rfl, rfl, rfl, rfl⟩

theorem fix_ok_dest (chain : String) (d d' : ProductData)
    (h : fix_product_data chain d = .ok d') :
    ∃ d4, resolvePrice (fixSpecialKey (fixBarcode chain d)) = .ok d4 ∧
      d' = fixUnitPrice (fixAnchorDate d4) := by
  unfold fix_product_data at h
  cases hres : resolvePrice (fixSpecialKey (fixBarcode chain d)) with
  | error e => rw [hres] at h; exact absurd h (by simp)
  | ok d4 =>
    rw [hres] at h
    simp only [Except.ok.injEq] at h
    exact ⟨d4, rfl, h.symm⟩

theorem fix_ok_barcode (chain : String) (d d' : ProductData)
    (h : fix_product_data chain d = .ok d') :
    d'.barcode = cleanBarcode (if d.barcode = "" then chain ++ ":" ++ d.product_id else d.barcode) := by
  obtain ⟨d4, hres, hd'⟩ := fix_ok_dest chain d d' h
  rw [hd', fixUnitPrice_barcode, fixAnchorDate_barcode,
    (resolvePrice_preserves _ _ hres).1]
  exact (fix_inner_fields chain d).2.2.2.2.2.1

end BarcodeCharacterization

def c2data : ProductData :=
  { emptyData with
    product_id := "9"
    barcode := String.mk [dquote]
    price := some (PyDecimal.num (mkRat 100 100))
    unit_price := some (PyDecimal.num (mkRat 100 100)) }

/-- Counterexample for C2 as stated: the record `c2data` has a barcode
consisting of a single double-quote character; `fix_product_data` accepts it
and returns a record whose barcode is the empty string (the synthesis step
checks for emptiness before the quote characters are stripped). -/
theorem claim_C2_counterexample :
    (fix_product_data "eurospin" c2data).map ProductData.barcode = .ok "" ∧
    c2data.barcode ≠ "" := by decide

/-- Claim C2, amended: for every record the fixer accepts, the resulting
barcode contains no quote characters; an empty extracted barcode is
synthesized as `"{chain}:{product_id}"` (then cleaned) and is then
non-empty; a non-empty extracted barcode is cleaned of quote characters and
surrounding whitespace — which yields the empty string when it consisted
only of such characters. -/
theorem claim_C2_amended (chain : String) (d d' : ProductData)
    (h : fix_product_data chain d = .ok d') :
    (∀ c, c ∈ d'.barcode.toList → c ≠ dquote ∧ c ≠ squote) ∧
    (d.barcode = "" → d'.barcode = cleanBarcode (chain ++ ":" ++ d.product_id) ∧ d'.barcode ≠ "") ∧
    (d.barcode ≠ "" → d'.barcode = cleanBarcode d.barcode) := by
  have hb := fix_ok_barcode chain d d' h
  refine ⟨?_, ?_, ?_⟩
  · intro c hc
    rw [hb] at hc
    exact mem_cleanBarcode _ _ hc
  · intro he
    rw [hb, if_pos he]
    exact ⟨rfl, cleanBarcode_synth_ne_empty chain d.product_id⟩
  · intro hne
    rw [hb, if_neg hne]

def w2data : ProductData :=
  { emptyData with
    product_id := "3"
    barcode := String.mk ['a', 'b', 'c', dquote, 'd']
    price := some (PyDecimal.num (mkRat 100 100))
    unit_price := some (PyDecimal.num (mkRat 200 100)) }

def w2fixed : ProductData :=
  { w2data with
    barcode := "abcd"
    special_price := some none }

/-- Witness for the amended C2 at the spec's own example: barcode
`abc"d` cleans to `abcd`. -/
theorem claim_C2_witness :
    (∀ c, c ∈ w2fixed.barcode.toList → c ≠ dquote ∧ c ≠ squote) ∧
    (w2data.barcode = "" →
      w2fixed.barcode = cleanBarcode ("eurospin" ++ ":" ++ w2data.product_id) ∧
      w2fixed.barcode ≠ "") ∧
    (w2data.barcode ≠ "" → w2fixed.barcode = cleanBarcode w2data.barcode) :=
  claim_C2_amended "eurospin" w2data w2fixed (by decide)

section IdempotenceLemmas

theorem fixUnitPrice_unit_ne_none (d : ProductData) (hp : d.price ≠ none) :
    (fixUnitPrice d).unit_price ≠ none := by
  unfold fixUnitPrice
  split
  · simpa using hp
  · rename_i hu
    simpa using hu

theorem fixAnchorDate_spec (d : ProductData) :
    d.anchor_price = none ∨
    ¬((fixAnchorDate d).anchor_price_date = none ∨ (fixAnchorDate d).anchor_price_date = some "") := by
  by_cases ha : d.anchor_price = none
  · exact Or.inl ha
  · right
    unfold fixAnchorDate
    split
    · simp
    · rename_i hcond
      intro hfal
      exact hcond ⟨ha, hfal⟩

end IdempotenceLemmas

def c7data : ProductData :=
  { emptyData with
    product_id := "77"
    barcode := String.mk [dquote]
    price := some (PyDecimal.num (mkRat 100 100))
    unit_price := some (PyDecimal.num (mkRat 100 100)) }

/-- Counterexample for C7 as stated: `c7data` (barcode a single double-quote
character, price present) is accepted by the fixer, but fixing the fixed
record is not the identity — the first pass cleans the barcode to the empty
string and the second pass then synthesizes `"{chain}:{product_id}"`. -/
theorem claim_C7_counterexample :
    (fix_product_data "eurospin" c7data).bind (fun e => fix_product_data "eurospin" e) ≠
      fix_product_data "eurospin" c7data := by decide

/-- Claim C7, amended: the fixer is idempotent on every accepted record
whose fixed barcode is non-empty (the only exception being a non-empty
extracted barcode consisting solely of quote characters and whitespace,
which cleans to the empty string and is re-synthesized by a second pass). -/
theorem claim_C7_amended (chain : String) (d d' : ProductData)
    (h : fix_product_data chain d = .ok d') (hbc : d'.barcode ≠ "") :
    fix_product_data chain d' = .ok d' := by
  obtain ⟨d4, hres, hd'⟩ := fix_ok_dest chain d d' h
  have hprice : d'.price ≠ none := fix_ok_price_some chain d d' h
  have hbar := fix_ok_barcode chain d d' h
  have hclean : cleanBarcode d'.barcode = d'.barcode := by
    rw [hbar, cleanBarcode_idem]
  have hspecial : d'.special_price ≠ none := by
    rw [hd', fixUnitPrice_special, fixAnchorDate_special,
      (resolvePrice_preserves _ _ hres).2.1, (fix_inner_fields chain d).2.1]
    simp
  have hunit : d'.unit_price ≠ none := by
    rw [hd']
    apply fixUnitPrice_unit_ne_none
    rw [fixAnchorDate_price]
    exact resolvePrice_price_some _ _ hres
  have hanchor : d'.anchor_price = none ∨
      ¬(d'.anchor_price_date = none ∨ d'.anchor_price_date = some "") := by
    rcases fixAnchorDate_spec d4 with hc | hc
    · left
      rw [hd', fixUnitPrice_anchor, fixAnchorDate_anchor]
      exact hc
    · right
      rw [hd', fixUnitPrice_anchor_date]
      exact hc
  rcases hpc : d'.price with _ | p
  · exact absurd hpc hprice
  have hfixB : fixBarcode chain d' = d' := by
    rw [fixBarcode_eq, if_neg hbc, hclean]
  have hfixS : fixSpecialKey d' = d' := by
    unfold fixSpecialKey
    rw [if_neg hspecial]
  have hfixR : resolvePrice d' = .ok d' := resolvePrice_of_price_some d' p hpc
  have hfixA : fixAnchorDate d' = d' := by
    unfold fixAnchorDate
    rw [if_neg ?hcond]
    case hcond =>
      rintro ⟨h1, h2⟩
      rcases hanchor with hc | hc
      · exact h1 hc
      · exact hc h2
  have hfixU : fixUnitPrice d' = d' := by
    unfold fixUnitPrice
    rw [if_neg hunit]
  unfold fix_product_data
  rw [hfixB, hfixS, hfixR]
  show Except.ok (fixUnitPrice (fixAnchorDate d')) = Except.ok d'
  rw [hfixA, hfixU]

def w7data : ProductData :=
  { emptyData with
    product_id := "5"
    barcode := "x"
    price := some (PyDecimal.num (mkRat 200 100))
    unit_price := some (PyDecimal.num (mkRat 300 100))
    special_price := some none }

/-- Witness for the amended C7 at a concrete record (which the fixer maps to
itself, so idempotence is visible directly). -/
theorem claim_C7_witness : fix_product_data "zzz" w7data = .ok w7data :=
  claim_C7_amended "zzz" w7data w7data (by decide) (by decide)

/-- Claim C5: `parse_price` uses exact decimal arithmetic with half-up
rounding to exactly 2 fractional digits (never binary float rounding):
`"1.005"` rounds up to 1.01 (`mkRat 101 100`) while `"1.004"` rounds down to
1.00, and the dropped leading zero of `".5"` is repaired, yielding 0.50.
The last two conjuncts restate the witnesses as fractions. -/
theorem claim_C5 :
    parse_price (some "1.005") true = .ok (some (PyDecimal.num (mkRat 101 100))) ∧
    parse_price (some "1.004") true = .ok (some (PyDecimal.num (mkRat 100 100))) ∧
    parse_price (some ".5") true = .ok (some (PyDecimal.num (mkRat 50 100))) ∧
    (mkRat 101 100 : Rat) = 101 / 100 ∧
    (mkRat 50 100 : Rat) = 1 / 2 := by
  refine ⟨by decide, by decide, by decide, ?_, ?_⟩
  · rw [mkRat_eq_div]
    norm_num
  · rw [mkRat_eq_div]
    norm_num

/-- Claim C6: separator and currency-marker invariance of `parse_price`.
For every character string, appending `€` or `" EUR"`, replacing every
comma by a dot, and adding surrounding whitespace do not change the result
(for either value of `required`); in particular
`"7,99 EUR"`, `"7.99€"` and `"7.99"` all parse to 7.99. -/
theorem claim_C6 :
    (∀ (l : List Char) (required : Bool),
        parse_price (some (String.mk (l ++ ['€']))) required
          = parse_price (some (String.mk l)) required ∧
        parse_price (some (String.mk (l ++ [' ', 'E', 'U', 'R']))) required
          = parse_price (some (String.mk l)) required ∧
        parse_price (some (String.mk (l.map commaToDot))) required
          = parse_price (some (String.mk l)) required ∧
        parse_price (some (String.mk (' ' :: l))) required
          = parse_price (some (String.mk l)) required ∧
        parse_price (some (String.mk (l ++ [' ']))) required
          = parse_price (some (String.mk l)) required) ∧
    parse_price (some "7,99 EUR") true = .ok (some (PyDecimal.num (mkRat 799 100))) ∧
    parse_price (some "7.99€") true = .ok (some (PyDecimal.num (mkRat 799 100))) ∧
    parse_price (some "7.99") true = .ok (some (PyDecimal.num (mkRat 799 100))) ∧
    (mkRat 799 100 : Rat) = 799 / 100 := by
  refine ⟨?_, by decide, by decide, by decide, by rw [mkRat_eq_div]; norm_num⟩
  intro l required
  exact ⟨parse_price_congr _ _ (normalizePriceChars_append_euro l) required,
    parse_price_congr _ _ (normalizePriceChars_append_EUR l) required,
    parse_price_congr _ _ (normalizePriceChars_map_commaToDot l) required,
    parse_price_congr _ _ (normalizePriceChars_cons_space l) required,
    parse_price_congr _ _ (normalizePriceChars_append_space l) required⟩

theorem resolvePrice_price_src (d e : ProductData) (h : resolvePrice d = .ok e) :
    e.price = d.price ∨ e.price = d.special_price.join ∨ e.price = d.unit_price := by
  unfold resolvePrice at h
  split at h
  · cases h
    exact Or.inl rfl
  · split at h
    · split at h
      · rename_i hu
        cases h
        right
        right
        rw [hu]
      · exact absurd h (by simp)
    · rename_i sp hs
      cases h
      right
      left
      rw [hs]

/-- Counterexample for C10 as stated: `parse_price("NaN", required=True)`
returns `Decimal("NaN")` — a non-absent value (`quantize` passes a quiet NaN
through unchanged) that is not a finite 2-decimal fixed-point value and does
not equal its own rounding. -/
theorem claim_C10_counterexample :
    parse_price (some "NaN") true = .ok (some (PyDecimal.nan false 0)) ∧
    (∀ r : Rat, PyDecimal.nan false 0 ≠ PyDecimal.num r) :=
  ⟨by decide, fun _ h => PyDecimal.noConfusion h⟩

/-- Claim C10, amended: every non-absent *finite* value `parse_price`
returns is already quantized to exactly two decimal places — it equals its
own half-up rounding to 2 fractional digits (quiet-NaN results, produced
from NaN literals, are the exception) — and `fix_product_data` preserves
this: if the extracted `price`, `special_price` and `unit_price` values are
all quantized when finite, the fixed record's `price` and `unit_price` are
present and quantized when finite. -/
theorem claim_C10_amended :
    (∀ (s : Option String) (required : Bool) (v : PyDecimal),
        parse_price s required = .ok (some v) →
        ∀ r : Rat, v = PyDecimal.num r → quantize2 r = some r) ∧
    (∀ (chain : String) (d d' : ProductData),
        fix_product_data chain d = .ok d' →
        (∀ v, d.price = some v → ∀ r : Rat, v = PyDecimal.num r → quantize2 r = some r) →
        (∀ v, d.special_price = some (some v) →
          ∀ r : Rat, v = PyDecimal.num r → quantize2 r = some r) →
        (∀ v, d.unit_price = some v → ∀ r : Rat, v = PyDecimal.num r → quantize2 r = some r) →
        (∃ p, d'.price = some p ∧ ∀ r : Rat, p = PyDecimal.num r → quantize2 r = some r) ∧
        (∃ u, d'.unit_price = some u ∧
          ∀ r : Rat, u = PyDecimal.num r → quantize2 r = some r)) := by
  constructor
  · intro s req v h r hr
    rcases parse_price_ok_shape s req v h with ⟨n, hn, hv⟩ | ⟨neg, pay, hv⟩
    · rw [hv] at hr
      have hn100 : mkRat n 100 = r := by simpa using hr
      rw [← hn100]
      exact quantize2_mkRat_100 n hn
    · rw [hv] at hr
      exact absurd hr (by simp)
  · intro chain d d' hfix hp hs hu
    obtain ⟨d4, hres, hd'⟩ := fix_ok_dest chain d d' hfix
    obtain ⟨h3p, h3s, h3u, _, _, _, _⟩ := fix_inner_fields chain d
    have hd'price : d'.price = d4.price := by
      rw [hd', fixUnitPrice_price, fixAnchorDate_price]
    have hq4 : ∀ v, d4.price = some v →
        ∀ r : Rat, v = PyDecimal.num r → quantize2 r = some r := by
      intro v hv
      rcases resolvePrice_price_src _ _ hres with hc | hc | hc
      · rw [h3p] at hc
        rw [hc] at hv
        exact hp v hv
      · have hc' : d4.price = d.special_price.join := by
          rw [hc, h3s]
          rfl
        rw [hc'] at hv
        cases hjs : d.special_price with
        | none =>
          rw [hjs] at hv
          exact absurd hv (by simp [Option.join])
        | some w =>
          rw [hjs] at hv
          have hw : w = some v := by simpa [Option.join] using hv
          exact hs v (by rw [hjs, hw])
      · rw [h3u] at hc
        rw [hc] at hv
        exact hu v hv
    have hPrice : ∃ p, d'.price = some p ∧
        ∀ r : Rat, p = PyDecimal.num r → quantize2 r = some r := by
      rcases hdp : d'.price with _ | p
      · exact absurd hdp (fix_ok_price_some chain d d' hfix)
      · exact ⟨p, rfl, hq4 p (by rw [← hd'price, hdp])⟩
    refine ⟨hPrice, ?_⟩
    rcases hju : (fixAnchorDate d4).unit_price with _ | u
    · have hduP : d'.unit_price = (fixAnchorDate d4).price := by
        rw [hd']
        unfold fixUnitPrice
        rw [if_pos hju]
      rw [fixAnchorDate_price] at hduP
      obtain ⟨p, hp1, hp2⟩ := hPrice
      refine ⟨p, ?_, hp2⟩
      rw [hduP, ← hd'price, hp1]
    · have hdu : d'.unit_price = some u := by
        rw [hd']
        unfold fixUnitPrice
        rw [if_neg (by rw [hju]; simp)]
        exact hju
      rw [fixAnchorDate_unit_price] at hju
      have hdunit : d.unit_price = some u := by
        rw [← h3u, ← (resolvePrice_preserves _ _ hres).2.2.1, hju]
      exact ⟨u, hdu, hu u hdunit⟩

/-- Witness for the amended C10, applying its first part to `"1,99"`. -/
theorem claim_C10_witness : quantize2 (mkRat 199 100) = some (mkRat 199 100) :=
  claim_C10_amended.1 (some "1,99") true (PyDecimal.num (mkRat 199 100)) (by decide)
    (mkRat 199 100) rfl

/-- A two-row Eurospin-format CSV record group whose second row is missing
the required name field (`NAZIV_PROIZVODA`). -/
def c4csv : String := "NAZIV_PROIZVODA;ŠIFRA_PROIZVODA;MARKA_PROIZVODA;NETO_KOLIČINA;JEDINICA_MJERE;BARKOD;KATEGORIJA_PROIZVODA;MALOPROD.CIJENA(EUR);CIJENA_ZA_JEDINICU_MJERE;MPC_POSEB.OBLIK_PROD;NAJNIŽA_MPC_U_30DANA;SIDRENA_CIJENA
Mlijeko 2.8%;1001;Dukat;1 L;L;3850102000000;mlijeko;1,99;1,99;;;
;1002;Dukat;1 L;L;3850102000001;mlijeko;2,49;2,49;;;
"

/-- The single `Product` parsed from `c4csv`'s first row. -/
def c4product : Product :=
  { product := "Mlijeko 2.8%"
    product_id := "1001"
    brand := "Dukat"
    quantity := "1 L"
    unit := "L"
    category := "mlijeko"
    barcode := "3850102000000"
    price := mkRat 199 100
    unit_price := mkRat 199 100
    special_price := none
    best_price_30 := none
    anchor_price := none
    anchor_price_date := none }

/-- Claim C4: record-level failure containment in `parse_csv`.  In general,
`parse_csv` produces exactly the `Product`s of the rows whose
`parse_csv_row` succeeds (a failing row is skipped, never propagated, and
the other rows are unaffected); concretely, the two-row group `c4csv` with
one row missing its required name field yields exactly one `Product`. -/
theorem claim_C4 :
    (∀ (cfg : CrawlerConfig) (content : String) (delim : Char),
        parse_csv cfg content delim =
          (readCsv content delim).filterMap (fun r => (parse_csv_row cfg r).toOption)) ∧
    parse_csv eurospinConfig c4csv ';' = [c4product] ∧
    (readCsv c4csv ';').length = 2 := by
  exact ⟨parse_csv_eq_filterMap, by decide, by decide⟩

/-- Claim C8: order preservation.  `parse_csv` emits products as an
order-preserving `filterMap` of its input rows, and the
`get_all_products` loop appends stores as an order-preserving `filterMap`
of the archive entries it is given. -/
theorem claim_C8 :
    (∀ (cfg : CrawlerConfig) (content : String) (delim : Char),
        parse_csv cfg content delim =
          (readCsv content delim).filterMap (fun r => (parse_csv_row cfg r).toOption)) ∧
    (∀ (parseStoreInfo : String → Except String Store)
        (getStorePrices : String → List Product)
        (entries : List (String × String)),
        get_all_products_from parseStoreInfo getStorePrices entries =
          entries.filterMap (fun e =>
            match parseStoreInfo e.1 with
            | .error _ => none
            | .ok store =>
              if (getStorePrices e.2).isEmpty then none
              else some { store with items := getStorePrices e.2 })) :=
  ⟨parse_csv_eq_filterMap, get_all_products_from_eq_filterMap⟩

end Cjenoslava
